import Mathlib

/-!
Verification of the reth snapshot/nippy-jar filter stack and surrounding helpers.

Shallow embedding of:
- `crates/primitives/src/snapshot/filters.rs` (`Filters`, `InclusionFilter`,
  `PerfectHashingFunction`)
- `crates/storage/nippy-jar/src/filter/mod.rs` (`InclusionFilters` dispatch)
- the Cuckoo inclusion filter and the perfect-hash index, modelled from the
  specification (their implementation files are not part of the provided
  sources; only the dispatching enum and the configuration enums are)
- `crates/tokio-util/src/event_listeners.rs` (`EventListeners`)
- `crates/rpc/rpc-types/src/eth/transaction/request.rs`
  (`TransactionRequest::into_typed_request`)
- `bin/reth/src/args/types.rs` (`ZeroAsNone`)

Machine integers are modelled as `Nat` (the properties checked here do not
depend on wrap-around); fallible Rust functions returning `Result`/`Option`
become `Except`/`Option`.
-/

/-! ## Snapshot filter configuration (`crates/primitives/src/snapshot/filters.rs`) -/

/-- Snapshot inclusion filter kind. The Rust enum has the single variant `Cuckoo`. -/
inductive InclusionFilter where
  | Cuckoo
deriving DecidableEq, Repr

/-- Snapshot perfect hashing function kind: `Fmph` (fingerprint-based minimal
perfect hash) or `GoFmph` (the group-optimized variant). -/
inductive PerfectHashingFunction where
  | Fmph
  | GoFmph
deriving DecidableEq, Repr

/-- Snapshot filters configuration: either `WithFilters(InclusionFilter,
PerfectHashingFunction)` or `WithoutFilters`. -/
inductive Filters where
  | WithFilters (f : InclusionFilter) (phf : PerfectHashingFunction)
  | WithoutFilters
deriving DecidableEq, Repr

/-- Rust `Filters::has_filters`: `matches!(self, Self::WithFilters(_, _))`. -/
def Filters.has_filters : Filters → Bool
  | .WithFilters _ _ => true
  | .WithoutFilters => false

/-! ## Nippy-jar inclusion filter (`crates/storage/nippy-jar/src/filter/mod.rs`)

The `Cuckoo` payload type lives in `filter/cuckoo.rs`, which is not among the
provided sources; it is modelled below from the specification's description of
the cuckoo filter (two candidate buckets per element derived from two hashes, a
fingerprint stored in a bucket slot, eviction/relocation up to a fixed kick
budget, capacity error on saturation). -/

/-- The nippy-jar error variants reachable from the filter module. -/
inductive NippyJarError where
  | UnsupportedFilterQuery
  | FilterMaxCapacity
deriving DecidableEq, Repr

/-- Modelled from the spec: static configuration of the cuckoo filter.
`2 ^ k` buckets, `bucketSize` fingerprint slots per bucket, a kick budget,
a fingerprint function, the element hash selecting the first candidate
bucket, the fingerprint hash selecting the partner bucket (xor trick), and a
slot-selection sequence standing in for the random eviction choice. -/
structure CuckooCfg where
  k : Nat
  bucketSize : Nat
  maxKicks : Nat
  fpOf : List Nat → Nat
  hashElem : List Nat → Nat
  hashFp : Nat → Nat
  pick : Nat → Nat

/-- Number of buckets (a power of two so that the xor partner stays in range). -/
def CuckooCfg.numBuckets (cfg : CuckooCfg) : Nat := 2 ^ cfg.k

/-- Bucket `i` of the filter state (`[]` when out of range; all indices used by
the operations stay in range for a well-formed state). -/
def bucketAt (s : List (List Nat)) (i : Nat) : List Nat := s.getD i []

/-- First candidate bucket of an element. -/
def CuckooCfg.i1 (cfg : CuckooCfg) (e : List Nat) : Nat :=
  cfg.hashElem e % cfg.numBuckets

/-- Partner bucket of bucket `i` for fingerprint `f` (xor of the fingerprint
hash, the standard cuckoo-filter pairing: it is an involution). -/
def CuckooCfg.altIdx (cfg : CuckooCfg) (i f : Nat) : Nat :=
  i ^^^ (cfg.hashFp f % cfg.numBuckets)

/-- Modelled from the spec: the eviction/relocation loop. At each step, if the
current bucket has a free slot the homeless fingerprint is placed there;
otherwise a resident fingerprint is evicted (slot chosen by `pick`), the
homeless fingerprint takes its slot, and the evicted one is re-inserted at its
own partner bucket. `none` means the kick budget was exhausted. -/
def kickLoop (cfg : CuckooCfg) (s : List (List Nat)) (i f : Nat) :
    Nat → Nat → Option (List (List Nat))
  | 0, _ => none
  | kicks + 1, t =>
    if (bucketAt s i).length < cfg.bucketSize then
      some (s.set i (f :: bucketAt s i))
    else
      have slot := cfg.pick t % cfg.bucketSize
      have g := (bucketAt s i).getD slot 0
      kickLoop cfg (s.set i ((bucketAt s i).set slot f)) (cfg.altIdx i g) g kicks (t + 1)

/-- Modelled from the spec: `Cuckoo::add`. Place the fingerprint in either
candidate bucket if one has room, otherwise run the eviction loop; exhausting
the kick budget is reported as the capacity error and the insertion is not
committed. -/
def cuckooAdd (cfg : CuckooCfg) (s : List (List Nat)) (e : List Nat) :
    Except NippyJarError (List (List Nat)) :=
  have f := cfg.fpOf e
  have b1 := cfg.i1 e
  have b2 := cfg.altIdx b1 f
  if (bucketAt s b1).length < cfg.bucketSize then
    .ok (s.set b1 (f :: bucketAt s b1))
  else if (bucketAt s b2).length < cfg.bucketSize then
    .ok (s.set b2 (f :: bucketAt s b2))
  else
    match kickLoop cfg s b1 f cfg.maxKicks 0 with
    | some s' => .ok s'
    | none => .error .FilterMaxCapacity

/-- Modelled from the spec: `Cuckoo::contains` — the fingerprint is looked up
in both candidate buckets. -/
def cuckooContains (cfg : CuckooCfg) (s : List (List Nat)) (e : List Nat) : Bool :=
  have f := cfg.fpOf e
  have b1 := cfg.i1 e
  decide (f ∈ bucketAt s b1) || decide (f ∈ bucketAt s (cfg.altIdx b1 f))

/-- A cuckoo filter: its configuration plus the bucket array. -/
structure Cuckoo where
  cfg : CuckooCfg
  buckets : List (List Nat)

/-- Enum with the different `InclusionFilter` types (`filter/mod.rs`):
`Cuckoo(Cuckoo)` or the `Unused` placeholder variant. -/
inductive InclusionFilters where
  | Cuckoo (c : Cuckoo)
  | Unused

/-- Rust `InclusionFilters::add`: dispatch to the cuckoo filter, or fail with
`UnsupportedFilterQuery` on the `Unused` variant. The Rust method mutates
`self`; here the updated filter is returned. -/
def InclusionFilters.add : InclusionFilters → List Nat →
    Except NippyJarError InclusionFilters
  | .Cuckoo c, e => (cuckooAdd c.cfg c.buckets e).map fun b => .Cuckoo ⟨c.cfg, b⟩
  | .Unused, _ => .error .UnsupportedFilterQuery

/-- Rust `InclusionFilters::contains`: dispatch to the cuckoo filter, or fail with
`UnsupportedFilterQuery` on the `Unused` variant. -/
def InclusionFilters.contains : InclusionFilters → List Nat →
    Except NippyJarError Bool
  | .Cuckoo c, e => .ok (cuckooContains c.cfg c.buckets e)
  | .Unused, _ => .error .UnsupportedFilterQuery

/-- Run a sequence of `add` calls, keeping the previous state when an
individual insertion reports an error (a failed insertion is not committed). -/
def runAdds (cfg : CuckooCfg) (s : List (List Nat)) : List (List Nat) → List (List Nat)
  | [] => s
  | e :: rest =>
    match cuckooAdd cfg s e with
    | .ok s' => runAdds cfg s' rest
    | .error _ => runAdds cfg s rest

/-! ## Basic facts about the candidate-bucket geometry -/

theorem altIdx_altIdx (cfg : CuckooCfg) (i f : Nat) :
    cfg.altIdx (cfg.altIdx i f) f = i := by
  unfold CuckooCfg.altIdx
  rw [Nat.xor_assoc, Nat.xor_self, Nat.xor_zero]

theorem altIdx_lt (cfg : CuckooCfg) {i : Nat} (f : Nat) (hi : i < cfg.numBuckets) :
    cfg.altIdx i f < cfg.numBuckets := by
  have hm : cfg.hashFp f % cfg.numBuckets < cfg.numBuckets :=
    Nat.mod_lt _ (Nat.pos_pow_of_pos _ (by norm_num))
  exact Nat.xor_lt_two_pow hi hm

theorem i1_lt (cfg : CuckooCfg) (e : List Nat) : cfg.i1 e < cfg.numBuckets :=
  Nat.mod_lt _ (Nat.pos_pow_of_pos _ (by norm_num))

theorem bucketAt_set_self (s : List (List Nat)) (i : Nat) (b : List Nat)
    (h : i < s.length) : bucketAt (s.set i b) i = b := by
  induction s generalizing i with
  | nil => simp at h
  | cons hd tl ih =>
    cases i with
    | zero => rfl
    | succ n => exact ih n (by simpa using h)

theorem bucketAt_set_ne (s : List (List Nat)) (i j : Nat) (b : List Nat)
    (h : j ≠ i) : bucketAt (s.set i b) j = bucketAt s j := by
  induction s generalizing i j with
  | nil => rfl
  | cons hd tl ih =>
    cases i with
    | zero => cases j with
      | zero => exact absurd rfl h
      | succ m => rfl
    | succ n => cases j with
      | zero => rfl
      | succ m => exact ih n m (fun hc => h (by rw [hc]))

theorem mem_set_or {l : List Nat} {x : Nat} (n : Nat) (v : Nat) (hx : x ∈ l) :
    x ∈ l.set n v ∨ x = l.getD n 0 := by
  induction l generalizing n with
  | nil => simp at hx
  | cons hd tl ih =>
    cases n with
    | zero =>
      rcases List.mem_cons.mp hx with rfl | hmem
      · exact Or.inr rfl
      · exact Or.inl (List.mem_cons_of_mem _ hmem)
    | succ m =>
      rcases List.mem_cons.mp hx with rfl | hmem
      · exact Or.inl (List.mem_cons_self _ _)
      · rcases ih m hmem with h | h
        · exact Or.inl (List.mem_cons_of_mem _ h)
        · exact Or.inr h

/-- A fingerprint `f` is well-placed for candidate bucket `i` when it sits in
bucket `i` or in that bucket's partner: this is exactly what `contains`
inspects. -/
def goodFor (cfg : CuckooCfg) (s : List (List Nat)) (f i : Nat) : Prop :=
  f ∈ bucketAt s i ∨ f ∈ bucketAt s (cfg.altIdx i f)

theorem goodFor_alt (cfg : CuckooCfg) (s : List (List Nat)) (f j : Nat) :
    goodFor cfg s f (cfg.altIdx j f) ↔ goodFor cfg s f j := by
  unfold goodFor
  rw [altIdx_altIdx]
  exact or_comm

theorem goodFor_transfer (cfg : CuckooCfg) (s : List (List Nat)) (x i j : Nat)
    (hij : i = j ∨ i = cfg.altIdx j x) (h : goodFor cfg s x i) :
    goodFor cfg s x j := by
  rcases hij with rfl | rfl
  · exact h
  · exact (goodFor_alt cfg s x j).mp h

theorem goodFor_of_grow (cfg : CuckooCfg) (s : List (List Nat)) (i : Nat)
    (f : Nat) (hi : i < s.length) (x j : Nat) (h : goodFor cfg s x j) :
    goodFor cfg (s.set i (f :: bucketAt s i)) x j := by
  have key : ∀ b, x ∈ bucketAt s b → x ∈ bucketAt (s.set i (f :: bucketAt s i)) b := by
    intro b hxb
    by_cases hbi : b = i
    · subst hbi
      rw [bucketAt_set_self _ _ _ hi]
      exact List.mem_cons_of_mem _ hxb
    · rw [bucketAt_set_ne _ _ _ _ hbi]
      exact hxb
  rcases h with h | h
  · exact Or.inl (key _ h)
  · exact Or.inr (key _ h)

theorem kickLoop_zero (cfg : CuckooCfg) (s : List (List Nat)) (i f t : Nat) :
    kickLoop cfg s i f 0 t = none := rfl

theorem kickLoop_succ (cfg : CuckooCfg) (s : List (List Nat)) (i f n t : Nat) :
    kickLoop cfg s i f (n + 1) t =
      if (bucketAt s i).length < cfg.bucketSize then
        some (s.set i (f :: bucketAt s i))
      else
        kickLoop cfg (s.set i ((bucketAt s i).set (cfg.pick t % cfg.bucketSize) f))
          (cfg.altIdx i ((bucketAt s i).getD (cfg.pick t % cfg.bucketSize) 0))
          ((bucketAt s i).getD (cfg.pick t % cfg.bucketSize) 0) n (t + 1) := rfl

theorem cuckooAdd_eq (cfg : CuckooCfg) (s : List (List Nat)) (e : List Nat) :
    cuckooAdd cfg s e =
      if (bucketAt s (cfg.i1 e)).length < cfg.bucketSize then
        .ok (s.set (cfg.i1 e) (cfg.fpOf e :: bucketAt s (cfg.i1 e)))
      else if (bucketAt s (cfg.altIdx (cfg.i1 e) (cfg.fpOf e))).length < cfg.bucketSize then
        .ok (s.set (cfg.altIdx (cfg.i1 e) (cfg.fpOf e))
          (cfg.fpOf e :: bucketAt s (cfg.altIdx (cfg.i1 e) (cfg.fpOf e))))
      else
        match kickLoop cfg s (cfg.i1 e) (cfg.fpOf e) cfg.maxKicks 0 with
        | some s' => .ok s'
        | none => .error .FilterMaxCapacity := rfl

theorem cuckooContains_eq (cfg : CuckooCfg) (s : List (List Nat)) (e : List Nat) :
    cuckooContains cfg s e =
      (decide (cfg.fpOf e ∈ bucketAt s (cfg.i1 e)) ||
        decide (cfg.fpOf e ∈ bucketAt s (cfg.altIdx (cfg.i1 e) (cfg.fpOf e)))) := rfl

/-- Invariant of the eviction loop: a successful run keeps the bucket count,
leaves the homeless fingerprint well-placed for the bucket it started from,
and preserves well-placement of every fingerprint already in the table. -/
theorem kickLoop_spec (cfg : CuckooCfg) (hb : 0 < cfg.bucketSize) :
    ∀ (kicks t : Nat) (s : List (List Nat)) (i f : Nat) (s' : List (List Nat)),
      s.length = cfg.numBuckets → i < cfg.numBuckets →
      kickLoop cfg s i f kicks t = some s' →
      s'.length = cfg.numBuckets ∧ goodFor cfg s' f i ∧
        (∀ x j, goodFor cfg s x j → goodFor cfg s' x j) := by
  intro kicks
  induction kicks with
  | zero =>
    intro t s i f s' _ _ hres
    rw [kickLoop_zero] at hres
    exact absurd hres (by simp)
  | succ n ih =>
    intro t s i f s' hlen hi hres
    rw [kickLoop_succ] at hres
    have hilen : i < s.length := by rw [hlen]; exact hi
    by_cases hroom : (bucketAt s i).length < cfg.bucketSize
    · rw [if_pos hroom] at hres
      have hs' : s.set i (f :: bucketAt s i) = s' := Option.some.inj hres
      subst hs'
      refine ⟨by simp [hlen], ?_, ?_⟩
      · exact Or.inl (by rw [bucketAt_set_self _ _ _ hilen]; exact List.mem_cons_self _ _)
      · intro x j hx
        exact goodFor_of_grow cfg s i f hilen x j hx
    · rw [if_neg hroom] at hres
      set slotv := cfg.pick t % cfg.bucketSize with hslotdef
      set gv := (bucketAt s i).getD slotv 0 with hgdef
      set s1 := s.set i ((bucketAt s i).set slotv f) with hs1def
      have hlen1 : s1.length = cfg.numBuckets := by rw [hs1def]; simp [hlen]
      have hi1 : cfg.altIdx i gv < cfg.numBuckets := altIdx_lt cfg gv hi
      obtain ⟨hL, hgood, hpres⟩ := ih (t + 1) s1 (cfg.altIdx i gv) gv s' hlen1 hi1 hres
      have hgood_g_i : goodFor cfg s' gv i := by
        unfold goodFor at hgood ⊢
        rw [altIdx_altIdx] at hgood
        exact hgood.symm
      refine ⟨hL, ?_, ?_⟩
      · have hslotlt : slotv < (bucketAt s i).length := by
          have h1 : slotv < cfg.bucketSize := Nat.mod_lt _ hb
          omega
        have hf1 : f ∈ bucketAt s1 i := by
          rw [hs1def, bucketAt_set_self _ _ _ hilen]
          exact List.mem_set _ _ hslotlt f
        exact hpres f i (Or.inl hf1)
      · intro x j hx
        have main : ∀ b, b = j ∨ b = cfg.altIdx j x → x ∈ bucketAt s b →
            goodFor cfg s' x j := by
          intro b hbj hxb
          by_cases hbi : b = i
          · subst hbi
            rcases mem_set_or slotv f hxb with hin | hxg
            · have hx1 : x ∈ bucketAt s1 b := by
                rw [hs1def, bucketAt_set_self _ _ _ hilen]
                exact hin
              exact hpres x j (goodFor_transfer cfg s1 x b j hbj (Or.inl hx1))
            · rw [← hgdef] at hxg
              subst hxg
              exact goodFor_transfer cfg s' _ _ j hbj hgood_g_i
          · have hx1 : x ∈ bucketAt s1 b := by
              rw [hs1def, bucketAt_set_ne _ _ _ _ hbi]
              exact hxb
            rcases hbj with rfl | rfl
            · exact hpres x _ (Or.inl hx1)
            · exact hpres x _ (Or.inr hx1)
        rcases hx with hx | hx
        · exact main j (Or.inl rfl) hx
        · exact main (cfg.altIdx j x) (Or.inr rfl) hx

theorem contains_iff_goodFor (cfg : CuckooCfg) (s : List (List Nat)) (e : List Nat) :
    cuckooContains cfg s e = true ↔ goodFor cfg s (cfg.fpOf e) (cfg.i1 e) := by
  rw [cuckooContains_eq]
  simp [goodFor]

/-- A successful `add` keeps the bucket count, leaves the new element's
fingerprint well-placed, and preserves well-placement of every fingerprint
already in the table. -/
theorem cuckooAdd_spec (cfg : CuckooCfg) (hb : 0 < cfg.bucketSize)
    (s : List (List Nat)) (e : List Nat) (s' : List (List Nat))
    (hlen : s.length = cfg.numBuckets)
    (hres : cuckooAdd cfg s e = .ok s') :
    s'.length = cfg.numBuckets ∧ goodFor cfg s' (cfg.fpOf e) (cfg.i1 e) ∧
      (∀ x j, goodFor cfg s x j → goodFor cfg s' x j) := by
  rw [cuckooAdd_eq] at hres
  have hb1 : cfg.i1 e < cfg.numBuckets := i1_lt cfg e
  have hb1len : cfg.i1 e < s.length := by rw [hlen]; exact hb1
  have hb2 : cfg.altIdx (cfg.i1 e) (cfg.fpOf e) < cfg.numBuckets := altIdx_lt cfg _ hb1
  have hb2len : cfg.altIdx (cfg.i1 e) (cfg.fpOf e) < s.length := by rw [hlen]; exact hb2
  by_cases h1 : (bucketAt s (cfg.i1 e)).length < cfg.bucketSize
  · rw [if_pos h1] at hres
    have hs' : s.set (cfg.i1 e) (cfg.fpOf e :: bucketAt s (cfg.i1 e)) = s' :=
      Except.ok.inj hres
    subst hs'
    refine ⟨by simp [hlen], ?_, ?_⟩
    · exact Or.inl (by rw [bucketAt_set_self _ _ _ hb1len]; exact List.mem_cons_self _ _)
    · intro x j hx
      exact goodFor_of_grow cfg s _ _ hb1len x j hx
  · rw [if_neg h1] at hres
    by_cases h2 : (bucketAt s (cfg.altIdx (cfg.i1 e) (cfg.fpOf e))).length < cfg.bucketSize
    · rw [if_pos h2] at hres
      have hs' : s.set (cfg.altIdx (cfg.i1 e) (cfg.fpOf e))
          (cfg.fpOf e :: bucketAt s (cfg.altIdx (cfg.i1 e) (cfg.fpOf e))) = s' :=
        Except.ok.inj hres
      subst hs'
      refine ⟨by simp [hlen], ?_, ?_⟩
      · exact Or.inr (by rw [bucketAt_set_self _ _ _ hb2len]; exact List.mem_cons_self _ _)
      · intro x j hx
        exact goodFor_of_grow cfg s _ _ hb2len x j hx
    · rw [if_neg h2] at hres
      cases hk : kickLoop cfg s (cfg.i1 e) (cfg.fpOf e) cfg.maxKicks 0 with
      | none => rw [hk] at hres; exact absurd hres (by simp)
      | some s2 =>
        rw [hk] at hres
        have hs2 : s2 = s' := Except.ok.inj hres
        subst hs2
        exact kickLoop_spec cfg hb cfg.maxKicks 0 s (cfg.i1 e) (cfg.fpOf e) s2 hlen hb1 hk

theorem runAdds_cons (cfg : CuckooCfg) (s : List (List Nat)) (e : List Nat)
    (rest : List (List Nat)) :
    runAdds cfg s (e :: rest) =
      match cuckooAdd cfg s e with
      | .ok s' => runAdds cfg s' rest
      | .error _ => runAdds cfg s rest := rfl

/-- Running any further sequence of insertions preserves bucket count and
well-placement of every fingerprint already in the table. -/
theorem runAdds_preserves (cfg : CuckooCfg) (hb : 0 < cfg.bucketSize) :
    ∀ (others : List (List Nat)) (s : List (List Nat)), s.length = cfg.numBuckets →
      (runAdds cfg s others).length = cfg.numBuckets ∧
        (∀ x j, goodFor cfg s x j → goodFor cfg (runAdds cfg s others) x j) := by
  intro others
  induction others with
  | nil => exact fun s hlen => ⟨hlen, fun x j h => h⟩
  | cons e rest ih =>
    intro s hlen
    rw [runAdds_cons]
    cases hk : cuckooAdd cfg s e with
    | ok s2 =>
      obtain ⟨hL2, _, hpres2⟩ := cuckooAdd_spec cfg hb s e s2 hlen hk
      obtain ⟨hL3, hpres3⟩ := ih s2 hL2
      exact ⟨hL3, fun x j h => hpres3 x j (hpres2 x j h)⟩
    | error err => exact ih s hlen

/-- C2: an element successfully added to a Cuckoo inclusion filter is reported
present by every subsequent `contains`, regardless of the other elements added
in between: no false negatives for the lifetime of the filter. -/
theorem cuckoo_no_false_negatives (cfg : CuckooCfg) (s s' : List (List Nat))
    (e : List Nat) (others : List (List Nat))
    (hb : 0 < cfg.bucketSize) (hlen : s.length = cfg.numBuckets)
    (hadd : cuckooAdd cfg s e = .ok s') :
    (InclusionFilters.Cuckoo ⟨cfg, runAdds cfg s' others⟩).contains e = .ok true := by
  obtain ⟨hL, hgood, _⟩ := cuckooAdd_spec cfg hb s e s' hlen hadd
  obtain ⟨_, hpres⟩ := runAdds_preserves cfg hb others s' hL
  show Except.ok (cuckooContains cfg (runAdds cfg s' others) e) = Except.ok true
  rw [(contains_iff_goodFor cfg (runAdds cfg s' others) e).mpr
    (hpres (cfg.fpOf e) (cfg.i1 e) hgood)]

/-- Concrete configuration used to instantiate the cuckoo-filter theorems:
two buckets of one slot each, two kicks, identity-style hashes. -/
def wCfg : CuckooCfg where
  k := 1
  bucketSize := 1
  maxKicks := 2
  fpOf := fun e => e.headD 0
  hashElem := fun e => e.headD 0
  hashFp := fun f => f
  pick := fun _ => 0

theorem cuckoo_no_false_negatives_witness :
    (InclusionFilters.Cuckoo ⟨wCfg, runAdds wCfg [[], [1]] [[2], [3]]⟩).contains [1] =
      .ok true :=
  cuckoo_no_false_negatives wCfg [[], []] [[], [1]] [1] [[2], [3]]
    (by decide) (by decide) rfl

/-- C5: `add` reports the capacity error exactly when the insertion is
saturated — both candidate buckets full and the eviction loop exhausts its
kick budget; a saturated insertion is never reported as success nor silently
dropped, and no other error is produced by `add`. -/
theorem cuckooAdd_capacity_iff (cfg : CuckooCfg) (s : List (List Nat)) (e : List Nat) :
    (cuckooAdd cfg s e = .error .FilterMaxCapacity ↔
      ¬(bucketAt s (cfg.i1 e)).length < cfg.bucketSize ∧
        ¬(bucketAt s (cfg.altIdx (cfg.i1 e) (cfg.fpOf e))).length < cfg.bucketSize ∧
        kickLoop cfg s (cfg.i1 e) (cfg.fpOf e) cfg.maxKicks 0 = none) ∧
    (∀ err, cuckooAdd cfg s e = .error err → err = .FilterMaxCapacity) := by
  rw [cuckooAdd_eq]
  by_cases h1 : (bucketAt s (cfg.i1 e)).length < cfg.bucketSize
  · rw [if_pos h1]
    exact ⟨by simp [h1], by simp⟩
  · rw [if_neg h1]
    by_cases h2 : (bucketAt s (cfg.altIdx (cfg.i1 e) (cfg.fpOf e))).length < cfg.bucketSize
    · rw [if_pos h2]
      exact ⟨by simp [h2], by simp⟩
    · rw [if_neg h2]
      cases hk : kickLoop cfg s (cfg.i1 e) (cfg.fpOf e) cfg.maxKicks 0 with
      | none => exact ⟨by simp [h1, h2, hk], by simp⟩
      | some s2 => exact ⟨by simp [hk], by simp⟩

theorem cuckooAdd_capacity_witness :
    cuckooAdd wCfg [[7], [8]] [1] = .error NippyJarError.FilterMaxCapacity ∧
      NippyJarError.FilterMaxCapacity = NippyJarError.FilterMaxCapacity :=
  ⟨(cuckooAdd_capacity_iff wCfg [[7], [8]] [1]).1.mpr (by decide),
    (cuckooAdd_capacity_iff wCfg [[7], [8]] [1]).2 NippyJarError.FilterMaxCapacity
      ((cuckooAdd_capacity_iff wCfg [[7], [8]] [1]).1.mpr (by decide))⟩

/-- C1: on the disabled/`Unused` filter variant, both `add` and `contains`
fail with the `UnsupportedFilterQuery` error for every element: no panic, no
silent success, no membership answer. -/
theorem unused_filter_unsupported (e : List Nat) :
    InclusionFilters.Unused.add e = .error .UnsupportedFilterQuery ∧
    InclusionFilters.Unused.contains e = .error .UnsupportedFilterQuery :=
  ⟨rfl, rfl⟩

/-- C4: the filter configuration is a closed choice — exactly the two variants
`WithFilters` (with `Cuckoo` as the only filter kind and `Fmph`/`GoFmph` as
the only hash kinds) and `WithoutFilters` — and `has_filters` is `true`
exactly on `WithFilters`. -/
theorem filters_closed_surface :
    (∀ x : InclusionFilter, x = .Cuckoo) ∧
    (∀ p : PerfectHashingFunction, p = .Fmph ∨ p = .GoFmph) ∧
    (∀ fl : Filters, (∃ i p, fl = .WithFilters i p) ∨ fl = .WithoutFilters) ∧
    (∀ fl : Filters, fl.has_filters = true ↔ ∃ i p, fl = .WithFilters i p) := by
  refine ⟨fun x => by cases x; rfl, fun p => by cases p <;> simp, ?_, ?_⟩
  · intro fl
    cases fl with
    | WithFilters i p => exact Or.inl ⟨i, p, rfl⟩
    | WithoutFilters => exact Or.inr rfl
  · intro fl
    cases fl with
    | WithFilters i p => exact iff_of_true rfl ⟨i, p, rfl⟩
    | WithoutFilters =>
      refine iff_of_false (by simp [Filters.has_filters]) ?_
      rintro ⟨i, p, h⟩
      exact Filters.noConfusion h

/-! ## Perfect hash index

Modelled from the spec: the PHF implementation (`Fmph`/`GoFmph` wrappers under
the nippy-jar crate) is not among the provided sources. The spec fixes the
contract: built once from the complete de-duplicated key set; `get` maps every
build-time key to its unique ordinal in `[0, n)` and any other key to an
arbitrary in-range ordinal, never a sentinel. -/

/-- Ordinal of the first occurrence of `key` in the build key list. -/
def ordOf : List (List Nat) → List Nat → Option Nat
  | [], _ => none
  | k :: ks, key => if k = key then some 0 else (ordOf ks key).map (· + 1)

/-- Modelled from the spec: the frozen perfect hash index retains the
de-duplicated build-time key set. -/
structure PerfectHashIndex where
  keys : List (List Nat)
deriving DecidableEq

/-- Modelled from the spec: closed-world construction from the full key set;
duplicate keys are a build error. -/
def phfBuild (keys : List (List Nat)) : Option PerfectHashIndex :=
  if keys.Nodup then some ⟨keys⟩ else none

/-- Modelled from the spec: baseline minimal-PHF (`Fmph`) lookup — the ordinal
assigned at build time for build keys, an arbitrary in-range ordinal (a hash
reduced mod `n`) for any other key. -/
def fmphGet (hash : List Nat → Nat) (p : PerfectHashIndex) (key : List Nat) : Nat :=
  match ordOf p.keys key with
  | some i => i
  | none => hash key % p.keys.length

/-- Modelled from the spec: group-optimized PHF (`GoFmph`) lookup — a different
internal ordinal assignment (modelled as the reversed one), same contract. -/
def goFmphGet (hash : List Nat → Nat) (p : PerfectHashIndex) (key : List Nat) : Nat :=
  match ordOf p.keys key with
  | some i => p.keys.length - 1 - i
  | none => hash key % p.keys.length

theorem phfBuild_some (keys : List (List Nat)) (p : PerfectHashIndex)
    (h : phfBuild keys = some p) : keys.Nodup ∧ p = ⟨keys⟩ := by
  unfold phfBuild at h
  by_cases hnd : keys.Nodup
  · rw [if_pos hnd] at h
    exact ⟨hnd, (Option.some.inj h).symm⟩
  · rw [if_neg hnd] at h
    exact absurd h (by simp)

theorem ordOf_some_of_mem (keys : List (List Nat)) (key : List Nat)
    (h : key ∈ keys) : ∃ i, ordOf keys key = some i ∧ i < keys.length := by
  induction keys with
  | nil => simp at h
  | cons k ks ih =>
    by_cases hk : k = key
    · exact ⟨0, by simp [ordOf, hk], by simp⟩
    · rcases List.mem_cons.mp h with h1 | h1
      · exact absurd h1.symm hk
      · obtain ⟨i, hi, hlt⟩ := ih h1
        exact ⟨i + 1, by simp [ordOf, hk, hi], by simpa using Nat.succ_lt_succ hlt⟩

theorem ordOf_getD (keys : List (List Nat)) (key : List Nat) (i : Nat)
    (h : ordOf keys key = some i) : i < keys.length ∧ keys.getD i [] = key := by
  induction keys generalizing i with
  | nil => simp [ordOf] at h
  | cons k ks ih =>
    by_cases hk : k = key
    · rw [ordOf, if_pos hk] at h
      obtain rfl : (0 : Nat) = i := Option.some.inj h
      exact ⟨by simp, hk⟩
    · rw [ordOf, if_neg hk] at h
      cases hrec : ordOf ks key with
      | none => rw [hrec] at h; simp at h
      | some j =>
        rw [hrec] at h
        obtain rfl : j + 1 = i := by simpa using h
        obtain ⟨hlt, heq⟩ := ih j hrec
        exact ⟨by simpa using Nat.succ_lt_succ hlt, heq⟩

theorem ordOf_none_of_not_mem (keys : List (List Nat)) (key : List Nat)
    (h : key ∉ keys) : ordOf keys key = none := by
  induction keys with
  | nil => rfl
  | cons k ks ih =>
    have hk : k ≠ key := fun hc => h (by rw [hc]; exact List.mem_cons_self _ _)
    rw [ordOf, if_neg hk, ih (fun hc => h (List.mem_cons_of_mem _ hc))]
    rfl

theorem getD_mem (l : List (List Nat)) (i : Nat) (h : i < l.length) :
    l.getD i [] ∈ l := by
  induction l generalizing i with
  | nil => simp at h
  | cons k ks ih =>
    cases i with
    | zero => exact List.mem_cons_self _ _
    | succ n => exact List.mem_cons_of_mem _ (ih n (by simpa using h))

theorem ordOf_self (keys : List (List Nat)) (hnd : keys.Nodup) (i : Nat)
    (hi : i < keys.length) : ordOf keys (keys.getD i []) = some i := by
  induction keys generalizing i with
  | nil => simp at hi
  | cons k ks ih =>
    cases i with
    | zero => simp [ordOf]
    | succ n =>
      have hn : n < ks.length := by simpa using hi
      have hmem : ks.getD n [] ∈ ks := getD_mem ks n hn
      have hk : k ≠ ks.getD n [] := fun hc => (List.nodup_cons.mp hnd).1 (hc ▸ hmem)
      show ordOf (k :: ks) (ks.getD n []) = some (n + 1)
      rw [ordOf, if_neg hk, ih (List.nodup_cons.mp hnd).2 n hn]
      rfl

/-- C3: for a build from `n` distinct keys, `get` restricted to the build set
is a bijection onto the ordinals `[0, n)` — in range, collision-free,
gap-free — and `get` on a key outside the set still returns an in-range
ordinal, not a sentinel. -/
theorem phf_bijection (hash : List Nat → Nat) (keys : List (List Nat))
    (p : PerfectHashIndex) (hbuild : phfBuild keys = some p) :
    (∀ key ∈ keys, fmphGet hash p key < keys.length) ∧
    (∀ k1 ∈ keys, ∀ k2 ∈ keys, fmphGet hash p k1 = fmphGet hash p k2 → k1 = k2) ∧
    (∀ i < keys.length, ∃ key ∈ keys, fmphGet hash p key = i) ∧
    (∀ key ∉ keys, 0 < keys.length → fmphGet hash p key < keys.length) := by
  obtain ⟨hnd, rfl⟩ := phfBuild_some keys p hbuild
  refine ⟨?_, ?_, ?_, ?_⟩
  · intro key hmem
    obtain ⟨i, hi, hlt⟩ := ordOf_some_of_mem keys key hmem
    rw [fmphGet, hi]
    exact hlt
  · intro k1 h1 k2 h2 heq
    obtain ⟨i1, hi1, _⟩ := ordOf_some_of_mem keys k1 h1
    obtain ⟨i2, hi2, _⟩ := ordOf_some_of_mem keys k2 h2
    rw [fmphGet, hi1, fmphGet, hi2] at heq
    subst heq
    rw [← (ordOf_getD keys k1 i1 hi1).2, ← (ordOf_getD keys k2 i1 hi2).2]
  · intro i hi
    refine ⟨keys.getD i [], getD_mem keys i hi, ?_⟩
    rw [fmphGet, ordOf_self keys hnd i hi]
  · intro key hkey hpos
    rw [fmphGet, ordOf_none_of_not_mem keys key hkey]
    exact Nat.mod_lt _ hpos

theorem phf_bijection_witness :
    phfBuild [[1], [2]] = some ⟨[[1], [2]]⟩ ∧
      (∃ key ∈ ([[1], [2]] : List (List Nat)),
        fmphGet (fun k => k.headD 0) ⟨[[1], [2]]⟩ key = 1) :=
  ⟨by decide,
    (phf_bijection (fun k => k.headD 0) [[1], [2]] ⟨[[1], [2]]⟩ (by decide)).2.2.1
      1 (by decide)⟩

/-- C7: the baseline minimal PHF and the group-optimized PHF satisfy the same
`get` contract — for the same build-time key set each is a bijection of that
set onto `[0, n)` and returns an arbitrary in-range ordinal outside it — so
either strategy may replace the other without changing the observable lookup
contract. -/
theorem phf_strategies_same_contract (hash : List Nat → Nat)
    (keys : List (List Nat)) (p : PerfectHashIndex)
    (hbuild : phfBuild keys = some p) :
    ((∀ key ∈ keys, fmphGet hash p key < keys.length) ∧
      (∀ k1 ∈ keys, ∀ k2 ∈ keys, fmphGet hash p k1 = fmphGet hash p k2 → k1 = k2) ∧
      (∀ i < keys.length, ∃ key ∈ keys, fmphGet hash p key = i) ∧
      (∀ key ∉ keys, 0 < keys.length → fmphGet hash p key < keys.length)) ∧
    ((∀ key ∈ keys, goFmphGet hash p key < keys.length) ∧
      (∀ k1 ∈ keys, ∀ k2 ∈ keys, goFmphGet hash p k1 = goFmphGet hash p k2 → k1 = k2) ∧
      (∀ i < keys.length, ∃ key ∈ keys, goFmphGet hash p key = i) ∧
      (∀ key ∉ keys, 0 < keys.length → goFmphGet hash p key < keys.length)) := by
  obtain ⟨hnd, rfl⟩ := phfBuild_some keys p hbuild
  refine ⟨⟨?_, ?_, ?_, ?_⟩, ⟨?_, ?_, ?_, ?_⟩⟩
  · intro key hmem
    obtain ⟨i, hi, hlt⟩ := ordOf_some_of_mem keys key hmem
    rw [fmphGet, hi]
    exact hlt
  · intro k1 h1 k2 h2 heq
    obtain ⟨i1, hi1, _⟩ := ordOf_some_of_mem keys k1 h1
    obtain ⟨i2, hi2, _⟩ := ordOf_some_of_mem keys k2 h2
    rw [fmphGet, hi1, fmphGet, hi2] at heq
    subst heq
    rw [← (ordOf_getD keys k1 i1 hi1).2, ← (ordOf_getD keys k2 i1 hi2).2]
  · intro i hi
    refine ⟨keys.getD i [], getD_mem keys i hi, ?_⟩
    rw [fmphGet, ordOf_self keys hnd i hi]
  · intro key hkey hpos
    rw [fmphGet, ordOf_none_of_not_mem keys key hkey]
    exact Nat.mod_lt _ hpos
  · intro key hmem
    obtain ⟨i, hi, hlt⟩ := ordOf_some_of_mem keys key hmem
    simp only [goFmphGet, hi]
    omega
  · intro k1 h1 k2 h2 heq
    obtain ⟨i1, hi1, hlt1⟩ := ordOf_some_of_mem keys k1 h1
    obtain ⟨i2, hi2, hlt2⟩ := ordOf_some_of_mem keys k2 h2
    simp only [goFmphGet, hi1, hi2] at heq
    have hii : i1 = i2 := by omega
    subst hii
    rw [← (ordOf_getD keys k1 i1 hi1).2, ← (ordOf_getD keys k2 i1 hi2).2]
  · intro i hi
    refine ⟨keys.getD (keys.length - 1 - i) [], getD_mem keys _ (by omega), ?_⟩
    simp only [goFmphGet, ordOf_self keys hnd (keys.length - 1 - i) (by omega)]
    omega
  · intro key hkey hpos
    rw [goFmphGet, ordOf_none_of_not_mem keys key hkey]
    exact Nat.mod_lt _ hpos

theorem phf_strategies_witness :
    fmphGet (fun k => k.headD 0) ⟨[[1], [2]]⟩ [1] < ([[1], [2]] : List (List Nat)).length ∧
      goFmphGet (fun k => k.headD 0) ⟨[[1], [2]]⟩ [1] < ([[1], [2]] : List (List Nat)).length :=
  ⟨(phf_strategies_same_contract (fun k => k.headD 0) [[1], [2]] ⟨[[1], [2]]⟩
      (by decide)).1.1 [1] (by decide),
    (phf_strategies_same_contract (fun k => k.headD 0) [[1], [2]] ⟨[[1], [2]]⟩
      (by decide)).2.1 [1] (by decide)⟩

/-! ## Event listeners (`crates/tokio-util/src/event_listeners.rs`)

A listener is modelled by the address of the stored sender (standing in for
the raw pointer the Rust code compares), whether its channel is still open
(whether `send` returns `Ok`), and the channel contents seen by the receiver. -/

/-- One registered `mpsc::UnboundedSender` together with the receiving end's
view: its address, whether the receiver is still alive, and the delivered
events. -/
structure Listener (T : Type) where
  addr : Nat
  isOpen : Bool
  inbox : List T
deriving DecidableEq

/-- A collection of event listeners for a task. -/
structure EventListeners (T : Type) where
  listeners : List (Listener T)
deriving DecidableEq

/-- Rust `UnboundedSender::send`: delivers the event when the channel is open,
fails (returns `Err`, modelled as `none`) when the receiver is gone. -/
def sendEvent {T : Type} (e : T) (l : Listener T) : Option (Listener T) :=
  if l.isOpen then some { l with inbox := l.inbox ++ [e] } else none

/-- Rust `EventListeners::notify`: `self.listeners.retain(|l| l.send(event).is_ok())`
— send to each listener in order and keep exactly those whose send succeeded. -/
def EventListeners.notify {T : Type} (s : EventListeners T) (e : T) : EventListeners T :=
  ⟨s.listeners.filterMap (sendEvent e)⟩

/-- Rust `EventListeners::remove_listener`: find the entry whose address equals the
argument's address and remove it, reporting whether one was found. -/
def EventListeners.remove_listener {T : Type} (s : EventListeners T) (ptr : Nat) :
    Bool × EventListeners T :=
  match s.listeners.findIdx? (fun l => l.addr == ptr) with
  | some pos => (true, ⟨s.listeners.eraseIdx pos⟩)
  | none => (false, s)

theorem filterMap_sendEvent {T : Type} (e : T) (ls : List (Listener T)) :
    ls.filterMap (sendEvent e) =
      (ls.filter fun l => l.isOpen).map fun l => { l with inbox := l.inbox ++ [e] } := by
  induction ls with
  | nil => rfl
  | cons l rest ih =>
    cases hop : l.isOpen with
    | true => simp [List.filterMap_cons, List.filter_cons, sendEvent, hop, ih]
    | false => simp [List.filterMap_cons, List.filter_cons, sendEvent, hop, ih]

/-- C6: `notify` delivers the event to every listener whose channel is still
open and afterwards the collection holds exactly the listeners whose send
succeeded — closed channels removed, open ones retained with the event
delivered, relative order preserved. -/
theorem notify_spec (T : Type) (s : EventListeners T) (e : T) :
    (s.notify e).listeners =
      (s.listeners.filter fun l => l.isOpen).map
        fun l => { l with inbox := l.inbox ++ [e] } :=
  filterMap_sendEvent e s.listeners

/-- C8: `remove_listener` compares raw addresses — it removes an entry (and
returns `true`) only when the argument's address is the address of an element
stored in the vector; for a caller-held clone with a distinct address it
returns `false` and leaves the collection unchanged. -/
theorem remove_listener_addr (T : Type) (s : EventListeners T) (ptr : Nat) :
    ((∀ l ∈ s.listeners, l.addr ≠ ptr) → s.remove_listener ptr = (false, s)) ∧
    ((s.remove_listener ptr).1 = true → ∃ l ∈ s.listeners, l.addr = ptr) := by
  constructor
  · intro hall
    unfold EventListeners.remove_listener
    have hnone : s.listeners.findIdx? (fun l => l.addr == ptr) = none := by
      rw [List.findIdx?_eq_none_iff]
      intro l hl
      simpa using hall l hl
    rw [hnone]
  · intro htrue
    unfold EventListeners.remove_listener at htrue
    cases hfind : s.listeners.findIdx? (fun l => l.addr == ptr) with
    | none => rw [hfind] at htrue; simp at htrue
    | some pos =>
      by_contra hno
      push_neg at hno
      have hnone : s.listeners.findIdx? (fun l => l.addr == ptr) = none := by
        rw [List.findIdx?_eq_none_iff]
        intro l hl
        simpa using hno l hl
      rw [hnone] at hfind
      exact Option.noConfusion hfind

theorem remove_listener_witness :
    EventListeners.remove_listener (T := Nat) ⟨[⟨1, true, []⟩]⟩ 2 =
      (false, ⟨[⟨1, true, []⟩]⟩) :=
  (remove_listener_addr Nat ⟨[⟨1, true, []⟩]⟩ 2).1 (by decide)

/-! ## RPC transaction request
(`crates/rpc/rpc-types/src/eth/transaction/request.rs`)

`U128`/`U256`/`U64`/`U8` and `Address` are modelled as `Nat`, `Bytes` as
`List Nat`; `unwrap_or_default()` becomes `Option.getD _ 0` (or `[]`). The
unreachable duplicated EIP-4844 arm of the Rust `match` (guarded by
`#[allow(unreachable_patterns)]` and containing `todo!()`) is dead code and is
not part of the embedding. -/

/-- One `AccessListItem`: an address and its storage keys. -/
structure AccessListItem where
  address : Nat
  storage_keys : List Nat
deriving DecidableEq

/-- Rust `AccessList`: a list of access-list items. -/
def AccessList := List AccessListItem
deriving DecidableEq

/-- Rust `TransactionKind`: call to an address, or contract creation. -/
inductive TransactionKind where
  | Call (a : Nat)
  | Create
deriving DecidableEq

/-- Rust `LegacyTransactionRequest` as built by `into_typed_request`. -/
structure LegacyTransactionRequest where
  nonce : Nat
  gas_price : Nat
  gas_limit : Nat
  value : Nat
  input : List Nat
  kind : TransactionKind
  chain_id : Option Nat
deriving DecidableEq

/-- Rust `EIP2930TransactionRequest` as built by `into_typed_request`. -/
structure EIP2930TransactionRequest where
  nonce : Nat
  gas_price : Nat
  gas_limit : Nat
  value : Nat
  input : List Nat
  kind : TransactionKind
  chain_id : Nat
  access_list : List AccessListItem
deriving DecidableEq

/-- Rust `EIP1559TransactionRequest` as built by `into_typed_request`. -/
structure EIP1559TransactionRequest where
  nonce : Nat
  max_fee_per_gas : Nat
  max_priority_fee_per_gas : Nat
  gas_limit : Nat
  value : Nat
  input : List Nat
  kind : TransactionKind
  chain_id : Nat
  access_list : List AccessListItem
deriving DecidableEq

/-- Rust `TypedTransactionRequest`: the reachable variants produced by
`into_typed_request`. -/
inductive TypedTransactionRequest where
  | Legacy (r : LegacyTransactionRequest)
  | EIP2930 (r : EIP2930TransactionRequest)
  | EIP1559 (r : EIP1559TransactionRequest)
deriving DecidableEq

/-- Rust `TransactionRequest`: all transaction requests received from RPC.
`from`/`to` are quoted because they are reserved words in Lean. -/
structure TransactionRequest where
  «from» : Option Nat
  «to» : Option Nat
  gas_price : Option Nat
  max_fee_per_gas : Option Nat
  max_priority_fee_per_gas : Option Nat
  gas : Option Nat
  value : Option Nat
  data : Option (List Nat)
  nonce : Option Nat
  access_list : Option (List AccessListItem)
  transaction_type : Option Nat
deriving DecidableEq

/-- Rust `TransactionRequest::into_typed_request`: reconcile `gas_price`,
`max_fee_per_gas` and `access_list` into a typed request, in the source's
match-arm order. -/
def TransactionRequest.into_typed_request (r : TransactionRequest) :
    Option TypedTransactionRequest :=
  match r.gas_price, r.max_fee_per_gas, r.access_list with
  | some gp, none, none =>
    some (.Legacy {
      nonce := r.nonce.getD 0
      gas_price := gp
      gas_limit := r.gas.getD 0
      value := r.value.getD 0
      input := r.data.getD []
      kind := match r.«to» with
        | some a => .Call a
        | none => .Create
      chain_id := none })
  | gp, none, some al =>
    some (.EIP2930 {
      nonce := r.nonce.getD 0
      gas_price := gp.getD 0
      gas_limit := r.gas.getD 0
      value := r.value.getD 0
      input := r.data.getD []
      kind := match r.«to» with
        | some a => .Call a
        | none => .Create
      chain_id := 0
      access_list := al })
  | none, some mf, al =>
    some (.EIP1559 {
      nonce := r.nonce.getD 0
      max_fee_per_gas := mf
      max_priority_fee_per_gas := r.max_priority_fee_per_gas.getD 0
      gas_limit := r.gas.getD 0
      value := r.value.getD 0
      input := r.data.getD []
      kind := match r.«to» with
        | some a => .Call a
        | none => .Create
      chain_id := 0
      access_list := al.getD [] })
  | none, none, none =>
    some (.EIP1559 {
      nonce := r.nonce.getD 0
      max_fee_per_gas := 0
      max_priority_fee_per_gas := r.max_priority_fee_per_gas.getD 0
      gas_limit := r.gas.getD 0
      value := r.value.getD 0
      input := r.data.getD []
      kind := match r.«to» with
        | some a => .Call a
        | none => .Create
      chain_id := 0
      access_list := [] })
  | _, _, _ => none

/-- Result is the `Legacy` variant. -/
def isLegacy : Option TypedTransactionRequest → Bool
  | some (.Legacy _) => true
  | _ => false

/-- Result is the `EIP2930` variant. -/
def isEIP2930 : Option TypedTransactionRequest → Bool
  | some (.EIP2930 _) => true
  | _ => false

/-- Result is the `EIP1559` variant. -/
def isEIP1559 : Option TypedTransactionRequest → Bool
  | some (.EIP1559 _) => true
  | _ => false

/-- C9: `into_typed_request` returns `None` exactly when both `gas_price` and
`max_fee_per_gas` are set; otherwise it returns `Some`: `Legacy` when only
`gas_price` is set and no access list is present, `EIP2930` whenever an access
list is present and `max_fee_per_gas` is unset, `EIP1559` otherwise — in
particular a request with all three fields absent yields `Some(EIP1559)`. -/
theorem into_typed_request_cases (r : TransactionRequest) :
    (r.into_typed_request = none ↔
      r.gas_price.isSome = true ∧ r.max_fee_per_gas.isSome = true) ∧
    (r.gas_price.isSome = true → r.max_fee_per_gas = none → r.access_list = none →
      isLegacy r.into_typed_request = true) ∧
    (r.access_list.isSome = true → r.max_fee_per_gas = none →
      isEIP2930 r.into_typed_request = true) ∧
    (r.max_fee_per_gas.isSome = true → r.gas_price = none →
      isEIP1559 r.into_typed_request = true) ∧
    (r.gas_price = none → r.max_fee_per_gas = none → r.access_list = none →
      isEIP1559 r.into_typed_request = true) := by
  cases hgp : r.gas_price <;> cases hmf : r.max_fee_per_gas <;>
    cases hal : r.access_list <;>
      simp [TransactionRequest.into_typed_request, hgp, hmf, hal, isLegacy,
        isEIP2930, isEIP1559]

theorem into_typed_request_witness :
    isEIP1559 (TransactionRequest.into_typed_request
      ⟨none, none, none, none, none, none, none, none, none, none, none⟩) = true :=
  (into_typed_request_cases
    ⟨none, none, none, none, none, none, none, none, none, none, none⟩).2.2.2.2
    rfl rfl rfl

/-! ## CLI `ZeroAsNone` helper (`bin/reth/src/args/types.rs`)

`u64` is modelled as `Nat` bounded by `U64_MAX`. `Display` for a `u64` is
modelled by `decDigits` (canonical decimal digits) and `str::parse::<u64>` by
`parseU64` (optional leading `+`, decimal digits, overflow rejected). -/

/-- Rust `u64::MAX`. -/
def U64_MAX : Nat := 2 ^ 64 - 1

/-- A helper type that maps `0` to `None` when parsing CLI arguments
(`pub struct ZeroAsNone(pub Option<u64>)`). -/
structure ZeroAsNone where
  val : Option Nat
deriving DecidableEq

/-- Rust `ZeroAsNone::new`. -/
def ZeroAsNone.new (value : Nat) : ZeroAsNone := ⟨some value⟩

/-- Rust `ZeroAsNone::unwrap_or_max`: the inner value or `u64::MAX` if `None`. -/
def ZeroAsNone.unwrap_or_max (z : ZeroAsNone) : Nat := z.val.getD U64_MAX

/-- Canonical decimal digits of a natural number, most significant first
(the model of `write!("{}", value)` for a `u64`). -/
def decDigits (n : Nat) : List Char :=
  if _h : n < 10 then [Nat.digitChar n]
  else decDigits (n / 10) ++ [Nat.digitChar (n % 10)]
termination_by n
decreasing_by exact Nat.div_lt_self (by omega) (by omega)

/-- Rust `Display for ZeroAsNone`: the inner value's decimal digits, or `"0"` for
`None`. -/
def zeroAsNoneDisplay (z : ZeroAsNone) : String :=
  match z.val with
  | some v => ⟨decDigits v⟩
  | none => "0"

/-- Decimal value of an ASCII digit character. -/
def charDigit? (c : Char) : Option Nat :=
  if '0' ≤ c ∧ c ≤ '9' then some (c.toNat - '0'.toNat) else none

/-- Accumulate the decimal value of a digit string; `none` on any non-digit. -/
def parseDigitsAux (acc : Nat) : List Char → Option Nat
  | [] => some acc
  | c :: cs =>
    match charDigit? c with
    | some d => parseDigitsAux (acc * 10 + d) cs
    | none => none

/-- Rust `str::parse::<u64>` accepts one optional leading `+`. -/
def stripPlus (cs : List Char) : List Char :=
  match cs with
  | [] => []
  | c :: rest => if c = '+' then rest else c :: rest

/-- Model of `str::parse::<u64>`: optional `+`, then a non-empty run of
decimal digits whose value fits in a `u64`; anything else is a parse error. -/
def parseU64 (s : String) : Option Nat :=
  match stripPlus s.data with
  | [] => none
  | c :: cs =>
    match parseDigitsAux 0 (c :: cs) with
    | some v => if v ≤ U64_MAX then some v else none
    | none => none

/-- Rust `FromStr for ZeroAsNone`: parse as `u64`, then map `0` to `None`. -/
def ZeroAsNone.from_str (s : String) : Option ZeroAsNone :=
  (parseU64 s).map fun value => ⟨if value = 0 then none else some value⟩

theorem charDigit_digitChar (d : Nat) (h : d < 10) :
    charDigit? (Nat.digitChar d) = some d := by
  interval_cases d <;> rfl

theorem digitChar_ne_plus (d : Nat) (h : d < 10) : Nat.digitChar d ≠ '+' := by
  interval_cases d <;> decide

theorem parseDigitsAux_append (acc : Nat) (l1 l2 : List Char) :
    parseDigitsAux acc (l1 ++ l2) =
      match parseDigitsAux acc l1 with
      | some a => parseDigitsAux a l2
      | none => none := by
  induction l1 generalizing acc with
  | nil => rfl
  | cons c cs ih =>
    show (match charDigit? c with
      | some d => parseDigitsAux (acc * 10 + d) (cs ++ l2)
      | none => none) = _
    cases hc : charDigit? c with
    | some d => simp [parseDigitsAux, hc, ih]
    | none => simp [parseDigitsAux, hc]

theorem parseDigitsAux_decDigits (v : Nat) :
    ∀ acc, ∃ k, parseDigitsAux acc (decDigits v) = some (acc * 10 ^ k + v) := by
  induction v using Nat.strong_induction_on with
  | _ v ih =>
    intro acc
    by_cases h : v < 10
    · refine ⟨1, ?_⟩
      rw [decDigits, dif_pos h]
      simp [parseDigitsAux, charDigit_digitChar v h]
    · obtain ⟨k, hk⟩ := ih (v / 10) (Nat.div_lt_self (by omega) (by omega)) acc
      refine ⟨k + 1, ?_⟩
      rw [decDigits, dif_neg h, parseDigitsAux_append, hk]
      have hm : v % 10 < 10 := Nat.mod_lt _ (by omega)
      simp only [parseDigitsAux, charDigit_digitChar (v % 10) hm]
      rw [pow_succ, ← mul_assoc]
      congr 1
      have hdm := Nat.div_add_mod v 10
      generalize acc * 10 ^ k = A
      omega

theorem decDigits_head (v : Nat) :
    ∃ d rest, d < 10 ∧ decDigits v = Nat.digitChar d :: rest := by
  induction v using Nat.strong_induction_on with
  | _ v ih =>
    by_cases h : v < 10
    · exact ⟨v, [], h, by rw [decDigits, dif_pos h]⟩
    · obtain ⟨d, rest, hd, heq⟩ := ih (v / 10) (Nat.div_lt_self (by omega) (by omega))
      exact ⟨d, rest ++ [Nat.digitChar (v % 10)], hd, by
        rw [decDigits, dif_neg h, heq]; rfl⟩

theorem parseU64_decDigits (v : Nat) (hv : v ≤ U64_MAX) :
    parseU64 ⟨decDigits v⟩ = some v := by
  obtain ⟨d, rest, hd, heq⟩ := decDigits_head v
  obtain ⟨k, hk⟩ := parseDigitsAux_decDigits v 0
  rw [zero_mul, zero_add] at hk
  unfold parseU64
  have hdata : (String.mk (decDigits v)).data = decDigits v := rfl
  rw [hdata, heq]
  have hstrip : stripPlus (Nat.digitChar d :: rest) = Nat.digitChar d :: rest := by
    show (if Nat.digitChar d = '+' then rest else Nat.digitChar d :: rest) =
      Nat.digitChar d :: rest
    rw [if_neg (digitChar_ne_plus d hd)]
  rw [hstrip]
  rw [heq] at hk
  simp only [hk]
  rw [if_pos hv]

/-- C10: parsing maps `"0"` to the `None` value (whose `unwrap_or_max` is
`u64::MAX`) and every other valid `u64` string to `Some` of its value;
`Display` followed by `from_str` is the identity on every `ZeroAsNone` value
except `Some(0)`, which displays as `"0"` and re-parses to `None`. -/
theorem zeroAsNone_spec :
    (ZeroAsNone.from_str "0" = some ⟨none⟩ ∧
      ZeroAsNone.unwrap_or_max ⟨none⟩ = U64_MAX) ∧
    (∀ (s : String) (v : Nat), parseU64 s = some v → v ≠ 0 →
      ZeroAsNone.from_str s = some ⟨some v⟩) ∧
    (∀ v : Nat, v ≤ U64_MAX → v ≠ 0 →
      ZeroAsNone.from_str (zeroAsNoneDisplay ⟨some v⟩) = some ⟨some v⟩) ∧
    ZeroAsNone.from_str (zeroAsNoneDisplay ⟨none⟩) = some ⟨none⟩ ∧
    ZeroAsNone.from_str (zeroAsNoneDisplay ⟨some 0⟩) = some ⟨none⟩ := by
  have h0 : decDigits 0 = ['0'] := by rw [decDigits]; rfl
  refine ⟨⟨by decide, rfl⟩, ?_, ?_, by decide, ?_⟩
  · intro s v hp hv
    unfold ZeroAsNone.from_str
    rw [hp]
    simp [hv]
  · intro v hle hv
    show ZeroAsNone.from_str ⟨decDigits v⟩ = some ⟨some v⟩
    unfold ZeroAsNone.from_str
    rw [parseU64_decDigits v hle]
    simp [hv]
  · show ZeroAsNone.from_str ⟨decDigits 0⟩ = some ⟨none⟩
    rw [h0]
    decide

theorem zeroAsNone_witness :
    ZeroAsNone.from_str "123" = some ⟨some 123⟩ ∧
      ZeroAsNone.from_str (zeroAsNoneDisplay ⟨some 123⟩) = some ⟨some 123⟩ :=
  ⟨zeroAsNone_spec.2.1 "123" 123 (by decide) (by decide),
    zeroAsNone_spec.2.2.1 123 (by decide) (by decide)⟩
